import Mathlib

/-!
Verification development for the thorchain-memoless-api repository.

The development shallowly embeds the decimal amount/reference codec
(`src/services/memoless.service.ts`), the memo affiliate transformer
(`src/services/memo-parser.service.ts`) and the registration orchestrator
(`RegistrationService.registerMemo` and its helpers) into Lean.

Modelling conventions, fixed once for the whole file:

* An amount string `"I.F"` (the shapes produced by `split('.')` in the
  source) is modelled by the structure `Amount` holding the digit list of
  the integer part and the digit list of the fractional part.  A digit is
  a `Nat`; well-formedness (`each digit < 10`) is carried as a hypothesis
  where a theorem needs it.
* A reference ID is a digit list (`List Nat`).  Per the repository's data
  model a reference ID is a non-empty decimal-digit string, so theorems
  about reference IDs may assume non-emptiness.
* JavaScript string primitives are translated pointwise:
  `substring(0, n)` is `List.take n`, `padEnd(n, '0')` appends zeros,
  `padStart(n, '0')` prepends zeros, and `slice(-k)` is `jsSliceNeg`
  (which, as in JavaScript, returns the whole string when `k = 0`).
* `parseFloat`/`parseInt` comparisons of decimal strings are modelled by
  comparison of the exact decimal values of the digit strings
  (`valNum`/`jsLe`/`jsLt`); the IEEE-754 rounding that `parseFloat`
  performs on extreme inputs is outside this model.
* `parseInt` applied to an empty integer part is `NaN`; the
  `NaN.`-prefixed strings this produces in `incrementBeforeReference`'s
  unguarded carry are modelled by `JsAmount.nanInt`, and `parseFloat` of
  such a string is `NaN`, whose comparisons are always false
  (`jsLeJs`).
* Memo strings, which the source splits on `':'` and rewrites, are
  modelled as `List Char` with executable translations of `trim`,
  `split(':')`, `toLowerCase` and `parseInt`.
* The source's unbounded `while` loops become fuel-indexed recursions
  returning `Option`; `none` for every fuel witnesses non-termination.
-/

namespace Memoless

set_option maxRecDepth 8000

/-! ## Digit-string primitives -/

/-- Numeric value of a big-endian digit list, as read by `parseInt` on a
non-empty digit string.  `parseInt('') = NaN` in JavaScript
(`natOfDigits [] = 0` is not its model): call sites where the source can
apply `parseInt` to an empty string handle it separately — the
`|| '0'` guard on `beforeReference` in `incrementBeforeReference`, the
`JsAmount.nanInt` result of that function's unguarded integer-part
parse, and `decrementBeforeReference`'s `intValue > 0` test, where
`NaN > 0` and `0 > 0` coincide (both false). -/
def natOfDigits (l : List Nat) : Nat :=
  l.foldl (fun acc d => 10 * acc + d) 0

/-- Base-10 digit expansion, most significant first, by structural
recursion on a fuel bound (`n` itself suffices as fuel). -/
def natToDigitsAux : Nat → Nat → List Nat
  | 0, _ => []
  | fuel + 1, n => if n = 0 then [] else natToDigitsAux fuel (n / 10) ++ [n % 10]

/-- Digit list of a natural number, as produced by `Number.toString()`:
`natToDigits 0 = [0]` and otherwise the base-10 digits, most significant
first. -/
def natToDigits (n : Nat) : List Nat :=
  if n = 0 then [0] else natToDigitsAux n n

/-- Model of `padStart(w, '0')` on a digit list. -/
def padStartZeros (l : List Nat) (w : Nat) : List Nat :=
  List.replicate (w - l.length) 0 ++ l

/-- Model of `padEnd(w, '0')` on a digit list. -/
def padEndZeros (l : List Nat) (w : Nat) : List Nat :=
  l ++ List.replicate (w - l.length) 0

/-- JavaScript `slice(-k)`: the last `k` elements, except that `k = 0`
(`slice(-0)` = `slice(0)`) returns the whole list, and `k` larger than the
length also returns the whole list. -/
def jsSliceNeg (l : List α) (k : Nat) : List α :=
  if k = 0 then l else l.drop (l.length - k)

/-- An amount string `"I.F"` after `split('.')`: integer-part digits and
fractional-part digits.  A string with no dot has `frac = []`. -/
structure Amount where
  int : List Nat
  frac : List Nat
deriving DecidableEq, Repr

/-- Numerator of the exact decimal value of an amount at scale
`10 ^ frac.length`. -/
def valNum (a : Amount) : Nat :=
  natOfDigits a.int * 10 ^ a.frac.length + natOfDigits a.frac

/-- Exact decimal value of an amount, the ideal semantics of
`parseFloat` on its string form. -/
def val (a : Amount) : ℚ :=
  (valNum a : ℚ) / 10 ^ a.frac.length

/-- Model of `parseFloat(x) <= parseFloat(y)` by exact cross-multiplied
comparison. -/
def jsLe (x y : Amount) : Bool :=
  decide (valNum x * 10 ^ y.frac.length ≤ valNum y * 10 ^ x.frac.length)

/-- Model of `parseFloat(x) < parseFloat(y)` by exact cross-multiplied
comparison. -/
def jsLt (x y : Amount) : Bool :=
  decide (valNum x * 10 ^ y.frac.length < valNum y * 10 ^ x.frac.length)

/-- A JavaScript amount string as handled by the suggestion code:
either a well-formed decimal `I.F` (`num`), or the string
`NaN.F` (`nanInt F`) that `incrementBeforeReference` produces when its
unguarded `(parseInt(integerPart) + 1).toString()` is applied to an
empty integer part (`parseInt('') = NaN`). -/
inductive JsAmount
  | num : Amount → JsAmount
  | nanInt : List Nat → JsAmount
deriving DecidableEq, Repr

/-- Model of `parseFloat(x) <= parseFloat(y)` on possibly-`NaN`-prefixed
amount strings: `parseFloat` of a `NaN.F` string is `NaN`, and every
comparison against `NaN` is false. -/
def jsLeJs (x y : JsAmount) : Bool :=
  match x, y with
  | .num a, .num b => jsLe a b
  | _, _ => false

/-! ## Decimal codec (`MemolessService`) -/

/-- The truncate-then-pad step shared by `validateAmountToReference`:
keep at most `assetDecimals` fractional digits (discarding, never
rounding) and pad with trailing zeros to exactly `assetDecimals`
digits. -/
def paddedFrac (frac : List Nat) (assetDecimals : Nat) : List Nat :=
  padEndZeros (if assetDecimals < frac.length then frac.take assetDecimals else frac)
    assetDecimals

/-- Translation of `MemolessService.validateAmountToReference` (memoless.service.ts
266-306): truncate the fractional part to `assetDecimals` digits, pad
with trailing zeros, and compare the last `referenceID.length` digits to
the reference. -/
def validateAmountToReference (amount : Amount) (referenceID : List Nat)
    (assetDecimals : Nat) : Bool :=
  decide (jsSliceNeg (paddedFrac amount.frac assetDecimals) referenceID.length = referenceID)

/-- Translation of `MemolessService.convertToRawAmount` (memoless.service.ts 491-505):
scale to THORChain's fixed 8 decimals (`padEnd(8,'0').substring(0,8)`),
concatenate with the integer digits, strip leading zeros and reparse.
The result is returned as the numeric value (the source's
`parseInt(...).toString()` round-trip).  The `decimals` argument is
accepted and ignored, exactly as in the source. -/
def convertToRawAmount (assetAmount : Amount) (decimals : Nat) : Nat :=
  natOfDigits (assetAmount.int ++ (padEndZeros assetAmount.frac 8).take 8)

/-! ## Registration-service codec helpers (`RegistrationService`) -/

/-- Translation of `RegistrationService.checkReferenceInAmount` (memoless.service.ts
1370-1387): the preflight reference-tail check.  It inspects the supplied
fractional digits directly — no truncation to `decimals` and no zero
padding — returning false when the fractional part is empty or shorter
than the reference.  The `decimals` parameter is unused, as in the
source. -/
def checkReferenceInAmount (amount : Amount) (referenceId : List Nat)
    (decimals : Nat) : Bool :=
  if amount.frac.length = 0 then false
  else if amount.frac.length < referenceId.length then false
  else decide (jsSliceNeg amount.frac referenceId.length = referenceId)

/-- Translation of `RegistrationService.calculateMinimumAmountToSend` (memoless.service.ts
1436-1480).  When the reference is at least as long as `decimals` the
reference is truncated to `decimals` digits and prefixed with `1.`;
otherwise the amount is `0.` followed by `decimals - len - 1` zeros, the
digit `1`, and the reference.  (The source's `paddingZeros < 0` branch is
unreachable: in the `else` branch `referenceLength < decimals`, so
`paddingZeros ≥ 0`.) -/
def calculateMinimumAmountToSend (referenceId : List Nat) (decimals : Nat) : Amount :=
  if decimals ≤ referenceId.length then
    { int := [1], frac := referenceId.take decimals }
  else
    { int := [0],
      frac := List.replicate (decimals - referenceId.length - 1) 0 ++ 1 :: referenceId }

/-- Translation of `RegistrationService.incrementBeforeReference` (memoless.service.ts
1540-1563): parse the fractional digits before the reference block as a
number (with the source's `|| '0'` guard), add one, and either carry
into the integer part (re-embedding the reference after a run of zeros)
or left-pad the incremented block back to its width and re-append the
reference.  The carry computes `(parseInt(integerPart) + 1).toString()`
unguarded: on an empty integer part `parseInt('')` is `NaN` and the
result is the string `NaN.` + zeros + reference (`JsAmount.nanInt`); on
a `NaN.F` input the integer part `NaN` likewise survives both
branches. -/
def incrementBeforeReference (amount : JsAmount) (referenceId : List Nat)
    (decimals : Nat) : JsAmount :=
  match amount with
  | .num a =>
    let referenceLength := referenceId.length
    let beforeReference := a.frac.take (decimals - referenceLength)
    let beforeNum := natOfDigits beforeReference + 1
    let maxBeforeValue := 10 ^ (decimals - referenceLength) - 1
    if maxBeforeValue < beforeNum then
      match a.int with
      | [] => .nanInt (List.replicate (decimals - referenceLength) 0 ++ referenceId)
      | _ :: _ =>
        .num { int := natToDigits (natOfDigits a.int + 1),
               frac := List.replicate (decimals - referenceLength) 0 ++ referenceId }
    else
      .num { int := a.int,
             frac := padStartZeros (natToDigits beforeNum) (decimals - referenceLength) ++
               referenceId }
  | .nanInt f =>
    let referenceLength := referenceId.length
    let beforeReference := f.take (decimals - referenceLength)
    let beforeNum := natOfDigits beforeReference + 1
    let maxBeforeValue := 10 ^ (decimals - referenceLength) - 1
    if maxBeforeValue < beforeNum then
      .nanInt (List.replicate (decimals - referenceLength) 0 ++ referenceId)
    else
      .nanInt (padStartZeros (natToDigits beforeNum) (decimals - referenceLength) ++ referenceId)

/-- One borrow cascade over the reversed before-the-reference digit
block: the source's leftward `while` loop that turns `0`s into `9`s until
it finds a digit to decrement, `none` when the whole block was zeros. -/
def decrementDigitsRev : List Nat → Option (List Nat)
  | [] => none
  | 0 :: rest => (decrementDigitsRev rest).map (fun r => 9 :: r)
  | (d + 1) :: rest => some (d :: rest)

/-- Translation of `RegistrationService.decrementBeforeReference` (memoless.service.ts
1723-1760): decrement the digit immediately before the reference block,
borrowing leftward through the fractional digits and then from the
integer part; when the integer part is zero the source returns
`0.` + `(len - referenceLength)` zeros + the original amount's last
`referenceLength` characters (for a non-empty reference these are, in
this branch, the last `referenceLength` fractional digits, since the
branch requires `referenceLength + 1 ≤ len`).  When `decrementIndex < 0`
the amount is returned unchanged, as in the source.  The source's
`parseInt(integerPart) > 0` test is modelled as
`0 < natOfDigits amount.int`: the two agree on every digit-list integer
part including the empty one, where `parseInt('') = NaN` and `NaN > 0`
is false just as `0 > 0` is, so the clamp branch is taken either way and
no `NaN` string can arise here. -/
def decrementBeforeReference (amount : Amount) (referenceLength : Nat) : Amount :=
  if referenceLength + 1 ≤ amount.frac.length then
    let beforeBlock := amount.frac.take (amount.frac.length - referenceLength)
    let rest := amount.frac.drop (amount.frac.length - referenceLength)
    match decrementDigitsRev beforeBlock.reverse with
    | some newRev => { int := amount.int, frac := newRev.reverse ++ rest }
    | none =>
      if 0 < natOfDigits amount.int then
        { int := natToDigits (natOfDigits amount.int - 1),
          frac := List.replicate beforeBlock.length 9 ++ rest }
      else
        { int := [0],
          frac := List.replicate (amount.frac.length - referenceLength) 0 ++
            jsSliceNeg amount.frac referenceLength }
  else amount

/-- The normalisation step of `calculateAmountSuggestions` and
`calculateSuggestedAmount` (memoless.service.ts 1504-1507, 1654-1657):
`decimalPart.substring(0, decimals).padEnd(decimals, '0')`. -/
def normalizeAmount (amount : Amount) (decimals : Nat) : Amount :=
  { int := amount.int, frac := padEndZeros (amount.frac.take decimals) decimals }

inductive Direction
  | up
  | down
deriving DecidableEq

/-- The `while (workingFloat <= originalFloat)` loop of
`calculateSingleSuggestion` (direction `up`) and of
`calculateSuggestedAmount`, with explicit fuel; `none` means the loop did
not finish within the given fuel.  A `NaN.`-prefixed working amount
makes the guard false (its `parseFloat` is `NaN`), so the loop then
returns that corrupted string, exactly as the source does. -/
def suggestLoopUp (fuel : Nat) (workingAmount : JsAmount) (normalizedAmount : Amount)
    (reference : List Nat) (decimals : Nat) : Option JsAmount :=
  match fuel with
  | 0 => none
  | fuel + 1 =>
    if jsLeJs workingAmount (.num normalizedAmount) then
      suggestLoopUp fuel (incrementBeforeReference workingAmount reference decimals)
        normalizedAmount reference decimals
    else some workingAmount

/-- The `while (workingFloat > originalFloat)` loop of
`calculateSingleSuggestion` (direction `down`), with explicit fuel. -/
def suggestLoopDown (fuel : Nat) (workingAmount normalizedAmount : Amount)
    (referenceLength : Nat) : Option Amount :=
  match fuel with
  | 0 => none
  | fuel + 1 =>
    if jsLt normalizedAmount workingAmount then
      suggestLoopDown fuel (decrementBeforeReference workingAmount referenceLength)
        normalizedAmount referenceLength
    else some workingAmount

/-- Translation of `RegistrationService.calculateSingleSuggestion` (memoless.service.ts
1689-1720): embed the reference into the last positions of the (already
normalised) amount, then raise (`up`, via `incrementBeforeReference`) or
lower (`down`, via `decrementBeforeReference`) until the loop condition
fails.  The `down` loop stays within well-formed amounts
(`decrementBeforeReference` maps digit strings to digit strings), so its
result is wrapped into `JsAmount.num`; only the `up` loop's carry can
produce a `NaN.`-prefixed string. -/
def calculateSingleSuggestion (fuel : Nat) (normalizedAmount : Amount)
    (reference : List Nat) (decimals : Nat) (direction : Direction) : Option JsAmount :=
  let workingAmount : Amount :=
    { int := normalizedAmount.int,
      frac := normalizedAmount.frac.take (decimals - reference.length) ++ reference }
  match direction with
  | .up => suggestLoopUp fuel (.num workingAmount) normalizedAmount reference decimals
  | .down =>
    (suggestLoopDown fuel workingAmount normalizedAmount reference.length).map JsAmount.num

/-- Translation of `RegistrationService.calculateSuggestedAmount` (memoless.service.ts
1483-1537): return the minimum outright when below it, otherwise
normalise, embed the reference (truncating the reference when longer than
`decimals`), and raise with the same increment loop as the `up`
direction. -/
def calculateSuggestedAmount (fuel : Nat) (requestedAmount minimumAmount : Amount)
    (referenceId : List Nat) (decimals : Nat) : Option JsAmount :=
  if jsLt requestedAmount minimumAmount then some (.num minimumAmount)
  else
    let normalizedRequested := normalizeAmount requestedAmount decimals
    if decimals < referenceId.length then
      some (.num { int := requestedAmount.int, frac := referenceId.take decimals })
    else
      suggestLoopUp fuel
        (.num { int := requestedAmount.int,
                frac := normalizedRequested.frac.take (decimals - referenceId.length) ++
                  referenceId })
        normalizedRequested referenceId decimals

/-! ## Memo transformer (`MemoParserService`)

Memo strings are modelled as `List Char`.  `Str` abbreviates that; the
translations of `trim`, `split(':')`, `toLowerCase` and `parseInt`
below are structural recursions so that concrete memos evaluate in the
kernel. -/

abbrev Str := List Char

/-- JavaScript `String.prototype.trim`: strip whitespace from both
ends. -/
def jsTrim (s : Str) : Str :=
  ((s.dropWhile Char.isWhitespace).reverse.dropWhile Char.isWhitespace).reverse

/-- JavaScript `split(sep)` for a one-character separator: splits at
every occurrence, keeping empty pieces, and returns `[""]` on the empty
string. -/
def splitOnChar (sep : Char) : Str → List Str
  | [] => [[]]
  | c :: rest =>
    let r := splitOnChar sep rest
    if c = sep then [] :: r
    else
      match r with
      | [] => [[c]]
      | h :: t => (c :: h) :: t

/-- JavaScript `toLowerCase` (ASCII as used by the memo actions). -/
def lowerStr (s : Str) : Str :=
  s.map Char.toLower

/-- Digit value of an ASCII digit list (helper for `jsParseInt`). -/
def natOfCharDigits (l : Str) : Nat :=
  l.foldl (fun acc c => 10 * acc + (c.toNat - 48)) 0

/-- JavaScript `parseInt` on a decimal string: skip leading whitespace,
read an optional sign and then the longest digit prefix; `none` models
`NaN` (no digits found). -/
def jsParseInt (s : Str) : Option Int :=
  let t := s.dropWhile Char.isWhitespace
  let signAndRest : Int × Str :=
    match t with
    | '-' :: r => (-1, r)
    | '+' :: r => (1, r)
    | _ => (1, t)
  let digs := signAndRest.2.takeWhile Char.isDigit
  if digs = [] then none
  else some (signAndRest.1 * (natOfCharDigits digs : Int))

/-- Translation of `MemoParserService.isSwapMemo` (memo-parser.service.ts 103-112):
the trimmed memo's first colon-field is `=`, `s` (case-insensitive) or
`swap` (case-insensitive). -/
def isSwapMemo (memo : Str) : Bool :=
  let trimmed := jsTrim memo
  if trimmed = [] then false
  else
    let action := (splitOnChar ':' trimmed).headD []
    decide (action = ['='] ∨ lowerStr action = ['s'] ∨ lowerStr action = ['s', 'w', 'a', 'p'])

/-- Translation of `MemoModificationResult` (memo-parser.service.ts 20-26). -/
structure MemoModificationResult where
  success : Bool
  originalMemo : Str
  modifiedMemo : Str
  changes : List Str
  errors : List Str
deriving DecidableEq, Repr

/-- Model of `join(':')` over memo fields. -/
def joinColon : List Str → Str
  | [] => []
  | [f] => f
  | f :: rest => f ++ ':' :: joinColon rest

/-- Translation of `MemoParserService.buildSwapMemoWithAffiliate` (memo-parser.service.ts
240-287): pad the fields to the six-slot layout
`ACTION:ASSET:DESTADDR:LIMIT:AFFILIATE:FEE` with empty strings, then set
the affiliate and fee slots when the affiliate slot is empty, otherwise
append the address with a `/` separator and append the fee with a `/`
separator when the fee slot is non-empty (setting it outright when it is
empty).  Returns the new fields and the change log.  The caller
guarantees at least three fields (the source throws otherwise). -/
def buildSwapMemoWithAffiliate (fields : List Str)
    (affiliateAddress affiliateFeeBp : Str) : List Str × List Str :=
  let result := fields ++ List.replicate (6 - fields.length) []
  let currentAffiliate := result.getD 4 []
  let currentFee := result.getD 5 []
  if currentAffiliate = [] then
    ((result.set 4 affiliateAddress).set 5 affiliateFeeBp,
      ["Added affiliate: ".toList ++ affiliateAddress,
       "Added affiliate fee: ".toList ++ affiliateFeeBp ++ " BP".toList])
  else
    ((result.set 4 (currentAffiliate ++ '/' :: affiliateAddress)).set 5
        (if currentFee = [] then affiliateFeeBp else currentFee ++ '/' :: affiliateFeeBp),
      ["Appended affiliate".toList, "Appended affiliate fee".toList])

/-- The affiliate-input validation of `modifySwapMemoWithAffiliate`:
an empty/whitespace affiliate address and a fee that does not parse or
lies outside `[0, 10000]` each contribute an error message. -/
def swapAffiliateErrors (affiliateAddress affiliateFeeBp : Str) : List Str :=
  (if jsTrim affiliateAddress = [] then ["Affiliate address cannot be empty".toList]
   else []) ++
  (if (match jsParseInt affiliateFeeBp with
       | none => true
       | some n => decide (n < 0 ∨ 10000 < n)) = true then
    ["Invalid affiliate fee: must be 0-10000 basis points".toList]
   else [])

/-- Translation of `MemoParserService.modifySwapMemoWithAffiliate` (memo-parser.service.ts
161-234): reject non-swap memos, empty/whitespace affiliate addresses,
fees outside `[0, 10000]` (or unparsable), and memos with fewer than
three colon-fields — in each case with `success := false` and the memo
returned unmodified; otherwise rebuild the memo through
`buildSwapMemoWithAffiliate`. -/
def modifySwapMemoWithAffiliate (memo affiliateAddress affiliateFeeBp : Str) :
    MemoModificationResult :=
  if ¬ isSwapMemo memo then
    { success := false, originalMemo := memo, modifiedMemo := memo,
      changes := [], errors := ["Not a valid swap memo format".toList] }
  else if swapAffiliateErrors affiliateAddress affiliateFeeBp ≠ [] then
    { success := false, originalMemo := memo, modifiedMemo := memo,
      changes := [], errors := swapAffiliateErrors affiliateAddress affiliateFeeBp }
  else if (splitOnChar ':' (jsTrim memo)).length < 3 then
    { success := false, originalMemo := memo, modifiedMemo := memo,
      changes := [], errors := ["Invalid swap memo: missing required fields".toList] }
  else
    { success := true, originalMemo := memo,
      modifiedMemo := joinColon
        (buildSwapMemoWithAffiliate (splitOnChar ':' (jsTrim memo))
          affiliateAddress affiliateFeeBp).1,
      changes := (buildSwapMemoWithAffiliate (splitOnChar ':' (jsTrim memo))
        affiliateAddress affiliateFeeBp).2,
      errors := [] }

/-! ## Registration orchestrator (`RegistrationService`) -/

/-- The affiliate environment configuration read by
`processAffiliateInjection` (`INJECT_AFFILIATE_IN_SWAPS`,
`AFFILIATE_THORNAME`, `AFFILIATE_FEE_BP`); the empty string models an
unset variable (JavaScript falsiness). -/
structure AffiliateConfig where
  injectAffiliateInSwaps : Bool
  affiliateThorname : Str
  affiliateFeeBp : Str

/-- The source's `process.env.AFFILIATE_FEE_BP || '5'` defaulting. -/
def effectiveFeeBp (cfg : AffiliateConfig) : Str :=
  if cfg.affiliateFeeBp = [] then ['5'] else cfg.affiliateFeeBp

/-- Translation of `RegistrationService.processAffiliateInjection` (memoless.service.ts
1569-1616): skip when injection is disabled, unconfigured, or the memo is
not a swap; otherwise attempt the modification and fall back to the
original memo when it reports failure.  Total by construction — every
path returns a memo. -/
def processAffiliateInjection (cfg : AffiliateConfig) (originalMemo : Str) : Str :=
  if ¬ cfg.injectAffiliateInSwaps then originalMemo
  else if cfg.affiliateThorname = [] then originalMemo
  else if ¬ isSwapMemo originalMemo then originalMemo
  else
    let r := modifySwapMemoWithAffiliate originalMemo cfg.affiliateThorname
      (effectiveFeeBp cfg)
    if r.success then r.modifiedMemo else originalMemo

/-- The `/thorchain/memo/{txid}` read-back payload (`MemoReference` in
types/index.ts); the reference is kept as its digit list. -/
structure MemoReferenceResp where
  asset : Str
  memo : Str
  reference : List Nat
  height : Str
  registration_hash : Str
  registered_by : Str
deriving DecidableEq, Repr

/-- The chain-side collaborators consulted during `registerMemo`,
quantified over so that theorems range over every collaborator
response: the broadcast (memo ↦ transaction hash or error), the memo
reference read-back (hash ↦ payload or error), and the decimals
resolved from the pools endpoint. -/
structure ChainOracle where
  broadcastResult : Str → Except Str Str
  memoReference : Str → Except Str MemoReferenceResp
  assetDecimals : Nat

/-- Translation of `RegistrationRequest` (memoless.service.ts 613-617), without the
optional requested amount (the suggested-amount computation is modelled
separately by `calculateSuggestedAmount` and does not touch
persistence). -/
structure RegistrationRequest where
  asset : Str
  memo : Str

inductive RegStatus
  | pending
  | confirmed
  | failed
deriving DecidableEq, Repr

/-- The `createRegistration` row (database.service.ts
`RegistrationRecord` as written by `registerMemo` step 9). -/
structure RegistrationRecord where
  txHash : Str
  asset : Str
  memo : Str
  status : RegStatus
  referenceId : List Nat
  height : Str
  registrationHash : Str
  registeredBy : Str
deriving DecidableEq, Repr

/-- The success payload of `registerMemo` (memoless.service.ts
990-1005), minus the optional suggested amount and with the
store-generated id abstracted to `0`. -/
structure RegistrationResponse where
  asset : Str
  memo : Str
  reference : List Nat
  reference_length : Nat
  height : Str
  registration_hash : Str
  registered_by : Str
  txHash : Str
  decimals : Nat
  minimum_amount_to_send : Amount
deriving DecidableEq, Repr

/-- Steps 6-9 of `RegistrationService.registerMemo` (memoless.service.ts
711-1006) as a function of the collaborator responses: broadcast the
`REFERENCE:asset:memo` registration (failure aborts with no persistence),
read back the memo reference (failure aborts with no persistence), then
persist a single `confirmed` record carrying the reference, height and
registering address from that read-back, and return the response.  The
first component collects every `createRegistration` call.  The balance
soft-check (step 3), notifications (step 10) and the QR/suggestion
extras never write registration state and are omitted. -/
def registerMemoCore (oracle : ChainOracle) (req : RegistrationRequest)
    (processedMemo : Str) : List RegistrationRecord × Except Str RegistrationResponse :=
  let registrationMemo := "REFERENCE:".toList ++ req.asset ++ ':' :: processedMemo
  match oracle.broadcastResult registrationMemo with
  | .error e => ([], .error e)
  | .ok txHash =>
    match oracle.memoReference txHash with
    | .error e =>
      ([], .error ("Registration successful but failed to retrieve memo details: ".toList ++ e))
    | .ok mr =>
      let minimumAmountToSend :=
        calculateMinimumAmountToSend mr.reference oracle.assetDecimals
      let record : RegistrationRecord :=
        { txHash := txHash, asset := req.asset, memo := req.memo,
          status := .confirmed, referenceId := mr.reference, height := mr.height,
          registrationHash := mr.registration_hash, registeredBy := mr.registered_by }
      ([record],
        .ok { asset := mr.asset, memo := mr.memo, reference := mr.reference,
              reference_length := mr.reference.length, height := mr.height,
              registration_hash := mr.registration_hash,
              registered_by := mr.registered_by, txHash := txHash,
              decimals := oracle.assetDecimals,
              minimum_amount_to_send := minimumAmountToSend })

/-- Translation of `RegistrationService.registerMemo` with the affiliate-injection step
(step 5) applied to the caller's memo before broadcast. -/
def registerMemoModel (cfg : AffiliateConfig) (oracle : ChainOracle)
    (req : RegistrationRequest) : List RegistrationRecord × Except Str RegistrationResponse :=
  registerMemoCore oracle req (processAffiliateInjection cfg req.memo)

/-! ## Concrete collaborator instances used by witnesses and
counterexamples -/

/-- An affiliate configuration with injection enabled, affiliate `-` and
fee `5` (the repository's documented defaults). -/
def sampleCfgOn : AffiliateConfig :=
  { injectAffiliateInSwaps := true, affiliateThorname := "-".toList,
    affiliateFeeBp := "5".toList }

/-- A registration request whose memo is an add-liquidity memo, which
the affiliate transformer rejects. -/
def sampleAddReq : RegistrationRequest :=
  { asset := "BTC.BTC".toList, memo := "+:BTC.BTC:bc1quser123".toList }

/-- A collaborator whose memo-reference read-back reports an empty
reference digit string. -/
def emptyRefOracle : ChainOracle :=
  { broadcastResult := fun _ => .ok "TX1".toList,
    memoReference := fun _ => .ok
      { asset := "BTC.BTC".toList, memo := "+:BTC.BTC:bc1quser123".toList,
        reference := [], height := "123".toList,
        registration_hash := "RH".toList, registered_by := "thor1x".toList },
    assetDecimals := 8 }

/-- A collaborator whose memo-reference read-back reports the reference
`00023`. -/
def okRefOracle : ChainOracle :=
  { broadcastResult := fun _ => .ok "TX2".toList,
    memoReference := fun _ => .ok
      { asset := "BTC.BTC".toList, memo := "+:BTC.BTC:bc1quser123".toList,
        reference := [0, 0, 0, 2, 3], height := "124".toList,
        registration_hash := "RH".toList, registered_by := "thor1x".toList },
    assetDecimals := 8 }

/-- The single `confirmed` record persisted when the collaborators are
`okRefOracle` for the request `sampleAddReq`. -/
def okRegRecord : RegistrationRecord :=
  { txHash := "TX2".toList, asset := "BTC.BTC".toList,
    memo := "+:BTC.BTC:bc1quser123".toList, status := .confirmed,
    referenceId := [0, 0, 0, 2, 3], height := "124".toList,
    registrationHash := "RH".toList, registeredBy := "thor1x".toList }

/-! ## Digit-arithmetic lemmas -/

theorem natOfDigits_foldl (l : List Nat) (a : Nat) :
    l.foldl (fun acc d => 10 * acc + d) a = a * 10 ^ l.length + natOfDigits l := by
  induction l generalizing a with
  | nil => simp [natOfDigits]
  | cons d t ih =>
    simp only [List.foldl_cons, List.length_cons, natOfDigits]
    rw [ih (10 * a + d), ih (10 * 0 + d)]
    ring

theorem natOfDigits_cons (d : Nat) (l : List Nat) :
    natOfDigits (d :: l) = d * 10 ^ l.length + natOfDigits l := by
  simpa [natOfDigits] using natOfDigits_foldl l d

theorem natOfDigits_append (l₁ l₂ : List Nat) :
    natOfDigits (l₁ ++ l₂) = natOfDigits l₁ * 10 ^ l₂.length + natOfDigits l₂ := by
  simpa [natOfDigits, List.foldl_append] using natOfDigits_foldl l₂ (natOfDigits l₁)

theorem natOfDigits_replicate_zero (k : Nat) :
    natOfDigits (List.replicate k 0) = 0 := by
  induction k with
  | zero => rfl
  | succ n ih => simpa [List.replicate_succ, natOfDigits_cons] using ih

theorem natOfDigits_lt (l : List Nat) (h : ∀ x ∈ l, x < 10) :
    natOfDigits l < 10 ^ l.length := by
  induction l with
  | nil => simp [natOfDigits]
  | cons d t ih =>
    have hd : d < 10 := h d (by simp)
    have ht : natOfDigits t < 10 ^ t.length := ih fun x hx => h x (by simp [hx])
    calc natOfDigits (d :: t) = d * 10 ^ t.length + natOfDigits t := natOfDigits_cons d t
      _ < d * 10 ^ t.length + 10 ^ t.length := by omega
      _ = (d + 1) * 10 ^ t.length := by ring
      _ ≤ 10 * 10 ^ t.length := Nat.mul_le_mul_right _ (by omega)
      _ = 10 ^ (d :: t).length := by rw [List.length_cons, pow_succ]; ring

theorem natOfDigits_natToDigitsAux (fuel : Nat) :
    ∀ n, n ≤ fuel → natOfDigits (natToDigitsAux fuel n) = n := by
  induction fuel with
  | zero => intro n hn; interval_cases n; rfl
  | succ f ih =>
    intro n hn
    by_cases h0 : n = 0
    · simp [natToDigitsAux, h0, natOfDigits]
    · have hdiv : n / 10 ≤ f := by omega
      simp only [natToDigitsAux, h0, if_false]
      rw [natOfDigits_append, ih (n / 10) hdiv]
      simp [natOfDigits_cons, natOfDigits]
      omega

theorem natOfDigits_natToDigits (n : Nat) :
    natOfDigits (natToDigits n) = n := by
  by_cases h0 : n = 0
  · simp [natToDigits, h0, natOfDigits]
  · simp only [natToDigits, h0, if_false]
    exact natOfDigits_natToDigitsAux n n le_rfl

theorem natToDigitsAux_length_le (fuel : Nat) :
    ∀ n k, n < 10 ^ k → (natToDigitsAux fuel n).length ≤ k := by
  induction fuel with
  | zero => intro n k _; simp [natToDigitsAux]
  | succ f ih =>
    intro n k hk
    by_cases h0 : n = 0
    · simp [natToDigitsAux, h0]
    · have hk1 : 0 < k := by
        by_contra hc
        have : k = 0 := by omega
        subst this
        simp at hk
        omega
      have hdiv : n / 10 < 10 ^ (k - 1) := by
        have h10 : (0 : Nat) < 10 := by norm_num
        rw [Nat.div_lt_iff_lt_mul h10]
        calc n < 10 ^ k := hk
          _ = 10 ^ (k - 1) * 10 := by rw [← pow_succ]; congr 1; omega
      simp only [natToDigitsAux, h0, if_false, List.length_append, List.length_singleton]
      have := ih (n / 10) (k - 1) hdiv
      omega

theorem natToDigits_length_le (n k : Nat) (hk : 0 < k) (hn : n < 10 ^ k) :
    (natToDigits n).length ≤ k := by
  by_cases h0 : n = 0
  · simp [natToDigits, h0]; omega
  · simp only [natToDigits, h0, if_false]
    exact natToDigitsAux_length_le n n k hn

theorem padStartZeros_natOfDigits (l : List Nat) (w : Nat) :
    natOfDigits (padStartZeros l w) = natOfDigits l := by
  simp [padStartZeros, natOfDigits_append, natOfDigits_replicate_zero]

theorem padStartZeros_length (l : List Nat) (w : Nat) (h : l.length ≤ w) :
    (padStartZeros l w).length = w := by
  simp [padStartZeros]
  omega

theorem padEndZeros_natOfDigits (l : List Nat) (w : Nat) :
    natOfDigits (padEndZeros l w) = natOfDigits l * 10 ^ (w - l.length) := by
  simp [padEndZeros, natOfDigits_append, natOfDigits_replicate_zero]

theorem padEndZeros_length (l : List Nat) (w : Nat) (h : l.length ≤ w) :
    (padEndZeros l w).length = w := by
  simp [padEndZeros]
  omega

theorem padEndZeros_of_length_eq (l : List Nat) (w : Nat) (h : l.length = w) :
    padEndZeros l w = l := by
  simp [padEndZeros, h]

/-! ## Value-comparison lemmas -/

theorem val_le_val_iff (x y : Amount) :
    val x ≤ val y ↔ valNum x * 10 ^ y.frac.length ≤ valNum y * 10 ^ x.frac.length := by
  unfold val
  rw [div_le_div_iff (by positivity) (by positivity)]
  push_cast
  constructor <;> intro h <;> exact_mod_cast h

theorem val_lt_val_iff (x y : Amount) :
    val x < val y ↔ valNum x * 10 ^ y.frac.length < valNum y * 10 ^ x.frac.length := by
  unfold val
  rw [div_lt_div_iff (by positivity) (by positivity)]
  push_cast
  constructor <;> intro h <;> exact_mod_cast h

theorem jsLe_true_iff (x y : Amount) : jsLe x y = true ↔ val x ≤ val y := by
  rw [jsLe, decide_eq_true_eq, val_le_val_iff]

theorem jsLe_false_iff (x y : Amount) : jsLe x y = false ↔ val y < val x := by
  rw [jsLe, decide_eq_false_iff_not, val_lt_val_iff y x]
  omega

theorem jsLt_true_iff (x y : Amount) : jsLt x y = true ↔ val x < val y := by
  rw [jsLt, decide_eq_true_eq, val_lt_val_iff]

theorem jsLt_false_iff (x y : Amount) : jsLt x y = false ↔ val y ≤ val x := by
  rw [jsLt, decide_eq_false_iff_not, val_le_val_iff y x]
  omega

theorem val_eq_of_same_length (x y : Amount) (h : x.frac.length = y.frac.length) :
    (val x < val y ↔ valNum x < valNum y) ∧ (val x ≤ val y ↔ valNum x ≤ valNum y) := by
  constructor
  · rw [val_lt_val_iff, h]
    exact Nat.mul_lt_mul_right (by positivity)
  · rw [val_le_val_iff, h]
    constructor
    · intro hm; exact Nat.le_of_mul_le_mul_right hm (by positivity)
    · intro hm; exact Nat.mul_le_mul_right _ hm

/-- Trailing zeros on the fractional part do not change the exact
value. -/
theorem val_padEndZeros (i l : List Nat) (w : Nat) (h : l.length ≤ w) :
    val { int := i, frac := padEndZeros l w } = val { int := i, frac := l } := by
  obtain ⟨k, hk⟩ : ∃ k, w = l.length + k := ⟨w - l.length, by omega⟩
  subst hk
  unfold val valNum
  simp only [padEndZeros_natOfDigits, padEndZeros_length l _ h, Nat.add_sub_cancel_left]
  push_cast
  rw [pow_add]
  field_simp
  ring

/-- An amount whose fractional digits end in a non-empty reference
passes the preflight tail check. -/
theorem checkReferenceInAmount_suffix (i pre r : List Nat) (d : Nat) (hr : r ≠ []) :
    checkReferenceInAmount { int := i, frac := pre ++ r } r d = true := by
  have hrl : 0 < r.length := List.length_pos.mpr hr
  unfold checkReferenceInAmount jsSliceNeg
  simp only [List.length_append]
  rw [if_neg (by omega), if_neg (by omega), if_neg (by omega),
    show pre.length + r.length - r.length = pre.length by omega, List.drop_left]
  simp

/-- An amount with exactly `d` fractional digits ending in a non-empty
reference passes the codec predicate. -/
theorem validateAmountToReference_suffix (i pre r : List Nat) (d : Nat) (hr : r ≠ [])
    (hlen : pre.length + r.length = d) :
    validateAmountToReference { int := i, frac := pre ++ r } r d = true := by
  have hrl : 0 < r.length := List.length_pos.mpr hr
  have hfl : (pre ++ r).length = d := by simp; omega
  unfold validateAmountToReference paddedFrac jsSliceNeg
  simp only
  rw [if_neg (show ¬ d < (pre ++ r).length by rw [hfl]; omega),
    padEndZeros_of_length_eq _ _ hfl, if_neg (by omega), hfl,
    show d - r.length = pre.length by omega, List.drop_left]
  simp

/-! ## C1: the preflight tail check versus the codec predicate -/

/-- The claimed equivalence fails because `checkReferenceInAmount`
neither truncates nor pads: on the amount `1.1` with reference `10` and
two decimals, the codec predicate pads `1` to `10` and accepts while the
preflight check rejects for being shorter than the reference. -/
theorem checkReference_validate_disagree :
    validateAmountToReference { int := [1], frac := [1] } [1, 0] 2 = true ∧
      checkReferenceInAmount { int := [1], frac := [1] } [1, 0] 2 = false := by
  decide

/-- C1 (amended): the preflight tail check `checkReferenceInAmount`
agrees with the codec predicate `validateAmountToReference` exactly when
the supplied amount already carries `decimals` fractional digits (and
`decimals` is positive); in general the preflight check performs neither
the truncation nor the zero padding of the codec predicate. -/
theorem checkReference_eq_validate_of_exact_precision (a : Amount)
    (referenceId : List Nat) (decimals : Nat) (hlen : a.frac.length = decimals)
    (hpos : 0 < decimals) :
    checkReferenceInAmount a referenceId decimals =
      validateAmountToReference a referenceId decimals := by
  have hpadded : paddedFrac a.frac decimals = a.frac := by
    unfold paddedFrac
    rw [if_neg (by omega)]
    exact padEndZeros_of_length_eq _ _ hlen
  unfold checkReferenceInAmount validateAmountToReference
  rw [hpadded, if_neg (by omega)]
  by_cases hshort : a.frac.length < referenceId.length
  · rw [if_pos hshort]
    have hne : jsSliceNeg a.frac referenceId.length ≠ referenceId := by
      intro he
      have : (jsSliceNeg a.frac referenceId.length).length = referenceId.length :=
        congrArg List.length he
      unfold jsSliceNeg at this
      rw [if_neg (by omega)] at this
      simp only [List.length_drop] at this
      omega
    simp [hne]
  · rw [if_neg hshort]

/-- Witness for C1 at reference `23`, decimals `2`, amount `0.23`. -/
theorem checkReference_eq_validate_witness :
    checkReferenceInAmount { int := [0], frac := [2, 3] } [2, 3] 2 =
      validateAmountToReference { int := [0], frac := [2, 3] } [2, 3] 2 :=
  checkReference_eq_validate_of_exact_precision { int := [0], frac := [2, 3] } [2, 3] 2
    (by decide) (by decide)

/-! ## C9: the minimum amount under the preflight tail check -/

/-- The claim fails when the reference is longer than `decimals`: for
reference `123` and two decimals the minimum amount is `1.12`, whose
two fractional digits are shorter than the reference, so the preflight
tail check rejects it. -/
theorem minimum_fails_preflight_check :
    checkReferenceInAmount (calculateMinimumAmountToSend [1, 2, 3] 2) [1, 2, 3] 2 = false := by
  decide

/-- C9 (amended): whenever the reference fits into the asset's decimals
(`len(r) ≤ decimals`, references being non-empty), the minimum amount
built by `calculateMinimumAmountToSend` passes the preflight tail check
`checkReferenceInAmount` for the same reference and decimals. -/
theorem minimum_passes_preflight_check (referenceId : List Nat) (decimals : Nat)
    (hne : referenceId ≠ []) (hlen : referenceId.length ≤ decimals) :
    checkReferenceInAmount (calculateMinimumAmountToSend referenceId decimals)
      referenceId decimals = true := by
  unfold calculateMinimumAmountToSend
  by_cases heq : decimals ≤ referenceId.length
  · have htake : List.take decimals referenceId = referenceId :=
      List.take_of_length_le (by omega)
    rw [if_pos heq, htake,
      show referenceId = ([] : List Nat) ++ referenceId from rfl]
    exact checkReferenceInAmount_suffix [1] [] referenceId decimals hne
  · rw [if_neg heq,
      show List.replicate (decimals - referenceId.length - 1) 0 ++ 1 :: referenceId =
        (List.replicate (decimals - referenceId.length - 1) 0 ++ [1]) ++ referenceId by simp]
    exact checkReferenceInAmount_suffix [0] _ referenceId decimals hne

/-- Witness for C9 at reference `00023` and eight decimals. -/
theorem minimum_passes_preflight_check_witness :
    checkReferenceInAmount (calculateMinimumAmountToSend [0, 0, 0, 2, 3] 8)
      [0, 0, 0, 2, 3] 8 = true :=
  minimum_passes_preflight_check [0, 0, 0, 2, 3] 8 (by decide) (by decide)

/-! ## C3: the minimum valid amount -/

theorem val_decompose (i f : List Nat) :
    val { int := i, frac := f } = (natOfDigits i : ℚ) + natOfDigits f / 10 ^ f.length := by
  unfold val valNum
  push_cast
  field_simp

theorem paddedFrac_length (f : List Nat) (d : Nat) : (paddedFrac f d).length = d := by
  unfold paddedFrac
  by_cases h : d < f.length
  · rw [if_pos h]
    exact padEndZeros_length _ _ (by simp)
  · rw [if_neg h]
    exact padEndZeros_length _ _ (by omega)

theorem natOfDigits_take_le (f : List Nat) (d : Nat) :
    natOfDigits (f.take d) * 10 ^ (f.length - d) ≤ natOfDigits f := by
  conv_rhs => rw [← List.take_append_drop d f]
  rw [natOfDigits_append, List.length_drop]
  omega

/-- The truncated-padded digits under-approximate the exact value of the
amount: discarding fractional digits beyond `d` never increases the
value, and padding never changes it. -/
theorem truncVal_le_val (a : Amount) (d : Nat) :
    (natOfDigits a.int : ℚ) + natOfDigits (paddedFrac a.frac d) / 10 ^ d ≤ val a := by
  unfold paddedFrac
  by_cases h : d < a.frac.length
  · rw [if_pos h, padEndZeros_of_length_eq _ _ (by simp; omega)]
    obtain ⟨k, hk⟩ : ∃ k, a.frac.length = d + k := ⟨a.frac.length - d, by omega⟩
    have key : (natOfDigits (a.frac.take d) : ℚ) * 10 ^ k ≤ natOfDigits a.frac := by
      have := natOfDigits_take_le a.frac d
      rw [hk, Nat.add_sub_cancel_left] at this
      exact_mod_cast this
    rw [val_decompose, hk, pow_add]
    have hdiv : (natOfDigits (a.frac.take d) : ℚ) / 10 ^ d ≤
        (natOfDigits a.frac : ℚ) / (10 ^ d * 10 ^ k) := by
      rw [div_le_div_iff (by positivity) (by positivity)]
      calc (natOfDigits (a.frac.take d) : ℚ) * (10 ^ d * 10 ^ k)
          = ((natOfDigits (a.frac.take d) : ℚ) * 10 ^ k) * 10 ^ d := by ring
        _ ≤ (natOfDigits a.frac : ℚ) * 10 ^ d := by
            have h10 : (0 : ℚ) < 10 ^ d := by positivity
            exact mul_le_mul_of_nonneg_right key (le_of_lt h10)
    linarith
  · rw [if_neg h]
    have hlen : a.frac.length ≤ d := by omega
    have hval : val { int := a.int, frac := padEndZeros a.frac d } = val a := by
      have := val_padEndZeros a.int a.frac d hlen
      simpa using this
    rw [← hval, val_decompose, padEndZeros_length _ _ hlen]

/-- Exact value of the constructed minimum amount. -/
theorem val_minimum (r : List Nat) (d : Nat) (hr : r ≠ []) (hle : r.length ≤ d) :
    val (calculateMinimumAmountToSend r d) =
      ((10 ^ r.length + natOfDigits r : ℕ) : ℚ) / 10 ^ d := by
  unfold calculateMinimumAmountToSend
  by_cases heq : d ≤ r.length
  · have hdl : r.length = d := le_antisymm hle heq
    rw [if_pos heq, List.take_of_length_le (by omega), val_decompose, hdl]
    have h1 : natOfDigits [1] = 1 := by decide
    rw [h1]
    push_cast
    field_simp
  · rw [if_neg heq, val_decompose]
    have h0 : natOfDigits [0] = 0 := by decide
    have hlen : (List.replicate (d - r.length - 1) 0 ++ 1 :: r).length = d := by
      simp
      omega
    rw [h0, hlen, natOfDigits_append, natOfDigits_replicate_zero, natOfDigits_cons]
    push_cast
    ring

/-- The claimed minimality fails: for reference `5` and eight decimals
the amount `0.00000005` is positive, matches the reference, and is
strictly smaller than the constructed minimum `0.00000015`; and for a
reference longer than the decimals (`123` with two decimals) the
constructed minimum `1.12` does not even match the reference. -/
theorem minimum_not_least :
    validateAmountToReference (calculateMinimumAmountToSend [1, 2, 3] 2) [1, 2, 3] 2 = false ∧
      validateAmountToReference { int := [0], frac := [0, 0, 0, 0, 0, 0, 0, 5] } [5] 8 = true ∧
      0 < val { int := [0], frac := [0, 0, 0, 0, 0, 0, 0, 5] } ∧
      val { int := [0], frac := [0, 0, 0, 0, 0, 0, 0, 5] } <
        val (calculateMinimumAmountToSend [5] 8) := by
  refine ⟨by decide, by decide, ?_, ?_⟩
  · rw [show ({ int := [0], frac := [0, 0, 0, 0, 0, 0, 0, 5] } : Amount) =
      { int := [0], frac := [0, 0, 0, 0, 0, 0, 0] ++ [5] } from rfl, val_decompose]
    norm_num [natOfDigits_append, natOfDigits_replicate_zero, natOfDigits]
  · rw [show ({ int := [0], frac := [0, 0, 0, 0, 0, 0, 0, 5] } : Amount) =
      { int := [0], frac := [0, 0, 0, 0, 0, 0, 0] ++ [5] } from rfl, val_decompose,
      val_minimum [5] 8 (by decide) (by decide)]
    norm_num [natOfDigits_append, natOfDigits_replicate_zero, natOfDigits]

/-- C3 (amended): for a non-empty reference fitting the decimals
(`len(r) ≤ d`) the constructed minimum matches the reference, and it is
least among the amounts that match the reference and whose digits
outside the reference tail (integer part or leading truncated-padded
fractional digits) are not all zero — the bare tail `0.0…0r` itself is
strictly smaller whenever the reference digits are non-zero, which is
what refutes the unrestricted claim. -/
theorem minimum_is_least_with_positive_base (r : List Nat) (d : Nat)
    (hr : r ≠ []) (hle : r.length ≤ d) :
    validateAmountToReference (calculateMinimumAmountToSend r d) r d = true ∧
      ∀ a : Amount, validateAmountToReference a r d = true →
        0 < natOfDigits a.int ∨
          0 < natOfDigits ((paddedFrac a.frac d).take (d - r.length)) →
        val (calculateMinimumAmountToSend r d) ≤ val a := by
  constructor
  · unfold calculateMinimumAmountToSend
    by_cases heq : d ≤ r.length
    · rw [if_pos heq, List.take_of_length_le (by omega),
        show r = ([] : List Nat) ++ r from rfl]
      exact validateAmountToReference_suffix [1] [] r d hr (by simp; omega)
    · rw [if_neg heq,
        show List.replicate (d - r.length - 1) 0 ++ 1 :: r =
          (List.replicate (d - r.length - 1) 0 ++ [1]) ++ r by simp]
      exact validateAmountToReference_suffix [0] _ r d hr (by simp; omega)
  · intro a hmatch hbase
    have hrl : 0 < r.length := List.length_pos.mpr hr
    set P := paddedFrac a.frac d with hP
    have hPlen : P.length = d := paddedFrac_length a.frac d
    have hdrop : P.drop (d - r.length) = r := by
      have := hmatch
      unfold validateAmountToReference jsSliceNeg at this
      rw [decide_eq_true_eq] at this
      rw [if_neg (by omega), hPlen] at this
      exact this
    have hsplit : P = P.take (d - r.length) ++ r := by
      conv_lhs => rw [← List.take_append_drop (d - r.length) P]
      rw [hdrop]
    have hprelen : (P.take (d - r.length)).length = d - r.length := by
      simp
      omega
    have hPval : natOfDigits P =
        natOfDigits (P.take (d - r.length)) * 10 ^ r.length + natOfDigits r := by
      conv_lhs => rw [hsplit]
      rw [natOfDigits_append]
    have hnum : 10 ^ r.length + natOfDigits r ≤
        natOfDigits a.int * 10 ^ d + natOfDigits P := by
      rw [hPval]
      rcases hbase with hI | hpre
      · have hpow : 10 ^ r.length ≤ 10 ^ d := Nat.pow_le_pow_right (by norm_num) hle
        have : 10 ^ d ≤ natOfDigits a.int * 10 ^ d := Nat.le_mul_of_pos_left _ hI
        omega
      · have : 10 ^ r.length ≤ natOfDigits (P.take (d - r.length)) * 10 ^ r.length :=
          Nat.le_mul_of_pos_left _ hpre
        omega
    have hmid : val (calculateMinimumAmountToSend r d) ≤
        (natOfDigits a.int : ℚ) + natOfDigits P / 10 ^ d := by
      rw [val_minimum r d hr hle]
      rw [show (natOfDigits a.int : ℚ) + natOfDigits P / 10 ^ d =
        ((natOfDigits a.int * 10 ^ d + natOfDigits P : ℕ) : ℚ) / 10 ^ d by
          push_cast <;> field_simp]
      gcongr <;> exact_mod_cast hnum
    exact le_trans hmid (truncVal_le_val a d)

/-- Witness for C3 at reference `00023` and six decimals: the minimum
`0.100023` matches, and the matching amount `25.100023` with positive
integer part is at least the minimum. -/
theorem minimum_is_least_witness :
    validateAmountToReference (calculateMinimumAmountToSend [0, 0, 2, 3] 6) [0, 0, 2, 3] 6
        = true ∧
      val (calculateMinimumAmountToSend [0, 0, 2, 3] 6) ≤
        val { int := [2, 5], frac := [1, 0, 0, 0, 2, 3] } :=
  ⟨(minimum_is_least_with_positive_base [0, 0, 2, 3] 6 (by decide) (by decide)).1,
    (minimum_is_least_with_positive_base [0, 0, 2, 3] 6 (by decide) (by decide)).2
      { int := [2, 5], frac := [1, 0, 0, 0, 2, 3] } (by decide) (Or.inl (by decide))⟩

/-! ## C2: the up-direction suggestion -/

theorem jsLeJs_num_num (x y : Amount) : jsLeJs (.num x) (.num y) = jsLe x y := rfl

theorem suggestLoopUp_exit (fuel : Nat) (w : JsAmount) (o : Amount) (r : List Nat) (d : Nat)
    (h : jsLeJs w (.num o) = false) : suggestLoopUp (fuel + 1) w o r d = some w := by
  simp [suggestLoopUp, h]

theorem suggestLoopUp_step (fuel : Nat) (w : JsAmount) (o : Amount) (r : List Nat) (d : Nat)
    (h : jsLeJs w (.num o) = true) :
    suggestLoopUp (fuel + 1) w o r d =
      suggestLoopUp fuel (incrementBeforeReference w r d) o r d := by
  simp [suggestLoopUp, h]

theorem suggestLoopDown_exit (fuel : Nat) (w o : Amount) (rl : Nat)
    (h : jsLt o w = false) : suggestLoopDown (fuel + 1) w o rl = some w := by
  simp [suggestLoopDown, h]

theorem suggestLoopDown_step (fuel : Nat) (w o : Amount) (rl : Nat)
    (h : jsLt o w = true) :
    suggestLoopDown (fuel + 1) w o rl =
      suggestLoopDown fuel (decrementBeforeReference w rl) o rl := by
  simp [suggestLoopDown, h]

/-- C2 is refuted as universally stated: for the desired amount
`.99999999` (empty integer part, a legal decimal string), reference
`2`, eight decimals, the increment carries into the integer part, where
the source computes `(parseInt('') + 1).toString() = 'NaN'`; the
suggestion returned is the string `NaN.00000002`, which is not an
amount strictly greater, as an exact decimal value, than the truncated
desired amount. -/
theorem up_suggestion_nan_on_empty_integer_part :
    calculateSingleSuggestion 2
        (normalizeAmount { int := [], frac := [9, 9, 9, 9, 9, 9, 9, 9] } 8) [2] 8 .up =
      some (JsAmount.nanInt [0, 0, 0, 0, 0, 0, 0, 2]) := by
  decide

/-- C2 (amended): for any well-formed amount with a non-empty integer
part and a non-empty reference fitting the decimals, the `up`
suggestion terminates within one increment (fuel `2` suffices) on a
well-formed amount, its result matches the reference under the codec
predicate, and its exact value strictly exceeds the desired amount
truncated (never rounded) to `decimals` fractional digits.  The
non-empty integer part is forced by the counterexample: an empty one
turns the carry into a `NaN.`-prefixed string. -/
theorem up_suggestion_matches_and_exceeds (a : Amount) (r : List Nat) (d : Nat)
    (hr : r ≠ []) (hrd : r.length ≤ d) (hint : a.int ≠ [])
    (hfrac : ∀ x ∈ a.frac, x < 10) (hrdig : ∀ x ∈ r, x < 10) :
    ∃ result,
      calculateSingleSuggestion 2 (normalizeAmount a d) r d .up =
          some (JsAmount.num result) ∧
        validateAmountToReference result r d = true ∧
        val { int := a.int, frac := a.frac.take d } < val result := by
  have hrl : 0 < r.length := List.length_pos.mpr hr
  set norm := normalizeAmount a d with hnorm
  have hnint : norm.int = a.int := rfl
  have hnlen : norm.frac.length = d := padEndZeros_length _ _ (by simp)
  have hn10 : ∀ x ∈ norm.frac, x < 10 := by
    intro x hx
    rcases List.mem_append.mp hx with h | h
    · exact hfrac x (List.take_subset _ _ h)
    · rw [List.eq_of_mem_replicate h]
      norm_num
  have htrunc : val { int := a.int, frac := a.frac.take d } = val norm :=
    (val_padEndZeros a.int (a.frac.take d) d (by simp)).symm
  set pre := norm.frac.take (d - r.length) with hpredef
  set tail := norm.frac.drop (d - r.length) with htaildef
  have hprelen : pre.length = d - r.length := by
    rw [hpredef]
    simp [hnlen]
  have htailen : tail.length = r.length := by
    rw [htaildef]
    simp [hnlen]
    omega
  have hsplitnf : norm.frac = pre ++ tail := (List.take_append_drop _ _).symm
  have htail10 : ∀ x ∈ tail, x < 10 := fun x hx =>
    hn10 x (by rw [hsplitnf]; exact List.mem_append.mpr (Or.inr hx))
  have hpre10 : ∀ x ∈ pre, x < 10 := fun x hx =>
    hn10 x (by rw [hsplitnf]; exact List.mem_append.mpr (Or.inl hx))
  have htlt : natOfDigits tail < 10 ^ r.length := by
    have := natOfDigits_lt tail htail10
    rwa [htailen] at this
  have hblt : natOfDigits pre < 10 ^ (d - r.length) := by
    have := natOfDigits_lt pre hpre10
    rwa [hprelen] at this
  set c0 : Amount := { int := norm.int, frac := pre ++ r } with hc0
  have hceq : calculateSingleSuggestion 2 norm r d .up =
      suggestLoopUp 2 (.num c0) norm r d := rfl
  have hFdecomp : natOfDigits norm.frac =
      natOfDigits pre * 10 ^ r.length + natOfDigits tail := by
    conv_lhs => rw [hsplitnf]
    rw [natOfDigits_append, htailen]
  have hvnorm : valNum norm = natOfDigits a.int * 10 ^ d +
      (natOfDigits pre * 10 ^ r.length + natOfDigits tail) := by
    unfold valNum
    rw [hnint, hnlen, hFdecomp]
  have hXY : 10 ^ (d - r.length) * 10 ^ r.length = 10 ^ d := by
    rw [← pow_add]
    congr 1
    omega
  rcases Bool.eq_false_or_eq_true (jsLe c0 norm) with hA | hA
  case inr =>
    -- the initial candidate is already strictly above the target
    refine ⟨c0, ?_, ?_, ?_⟩
    · rw [hceq, show (2 : Nat) = 1 + 1 from rfl,
        suggestLoopUp_exit 1 (.num c0) norm r d (by rw [jsLeJs_num_num]; exact hA)]
    · exact validateAmountToReference_suffix norm.int pre r d hr (by omega)
    · rw [htrunc]
      exact (jsLe_false_iff c0 norm).mp hA
  case inl =>
    -- one increment is performed; it lands strictly above the target
    have hbefore : c0.frac.take (d - r.length) = pre := by
      rw [show c0.frac = pre ++ r from rfl, ← hprelen, List.take_left]
    rcases Nat.lt_or_ge (10 ^ (d - r.length) - 1) (natOfDigits pre + 1) with hcarry | hnocarry
    · -- carry into the integer part, whose digit list is non-empty
      obtain ⟨h0, t0, hint2⟩ := List.exists_cons_of_ne_nil hint
      set c1a : Amount :=
        ⟨natToDigits (natOfDigits a.int + 1), List.replicate (d - r.length) 0 ++ r⟩
        with hc1adef
      have hc1eq : incrementBeforeReference (.num c0) r d = .num c1a := by
        rw [hc1adef]
        simp only [incrementBeforeReference]
        rw [hbefore, if_pos hcarry, show c0.int = a.int from hnint, hint2]
      have hc1len : c1a.frac.length = d := by
        rw [hc1adef]
        simp
        omega
      have hvc1 : valNum c1a = (natOfDigits a.int + 1) * 10 ^ d + natOfDigits r := by
        rw [hc1adef]
        unfold valNum
        simp only
        rw [natOfDigits_natToDigits, natOfDigits_append, natOfDigits_replicate_zero,
          List.length_append, List.length_replicate,
          show d - r.length + r.length = d by omega]
        ring
      have hFlt : natOfDigits pre * 10 ^ r.length + natOfDigits tail < 10 ^ d := by
        have hp := Nat.mul_le_mul_right (10 ^ r.length)
          (show natOfDigits pre ≤ 10 ^ (d - r.length) - 1 by omega)
        have hsub : (10 ^ (d - r.length) - 1) * 10 ^ r.length =
            10 ^ (d - r.length) * 10 ^ r.length - 1 * 10 ^ r.length := Nat.sub_mul _ _ _
        have hY : 0 < 10 ^ r.length := by positivity
        have hX : 0 < 10 ^ (d - r.length) := by positivity
        have hXYpos : 10 ^ r.length ≤ 10 ^ (d - r.length) * 10 ^ r.length :=
          Nat.le_mul_of_pos_left _ hX
        rw [hsub, one_mul] at hp
        omega
      have hstep : valNum norm < valNum c1a := by
        rw [hvnorm, hvc1, Nat.succ_mul]
        omega
      have hexit : jsLeJs (.num c1a) (.num norm) = false := by
        rw [jsLeJs_num_num]
        exact (jsLe_false_iff c1a norm).mpr
          (((val_eq_of_same_length norm c1a (by rw [hnlen, hc1len])).1).mpr hstep)
      refine ⟨c1a, ?_, ?_, ?_⟩
      · rw [hceq, show (2 : Nat) = 1 + 1 from rfl,
          suggestLoopUp_step 1 (.num c0) norm r d (by rw [jsLeJs_num_num]; exact hA),
          hc1eq, show (1 : Nat) = 0 + 1 from rfl,
          suggestLoopUp_exit 0 (.num c1a) norm r d hexit]
      · rw [hc1adef]
        exact validateAmountToReference_suffix _ _ r d hr (by simp; omega)
      · rw [htrunc]
        exact ((val_eq_of_same_length norm c1a (by rw [hnlen, hc1len])).1).mpr hstep
    · -- no carry: the incremented block is padded back into place
      have hdpos : 0 < d - r.length := by
        by_contra h
        rw [show d - r.length = 0 by omega] at hnocarry
        simp at hnocarry
      have hlen1 : (natToDigits (natOfDigits pre + 1)).length ≤ d - r.length := by
        apply natToDigits_length_le _ _ hdpos
        have h10 : 0 < 10 ^ (d - r.length) := pow_pos (by norm_num) _
        omega
      set c1a : Amount :=
        ⟨a.int, padStartZeros (natToDigits (natOfDigits pre + 1)) (d - r.length) ++ r⟩
        with hc1adef
      have hc1eq : incrementBeforeReference (.num c0) r d = .num c1a := by
        rw [hc1adef]
        simp only [incrementBeforeReference]
        rw [hbefore, if_neg (by omega), show c0.int = a.int from hnint]
      have hc1len : c1a.frac.length = d := by
        rw [hc1adef]
        simp only [List.length_append, padStartZeros_length _ _ hlen1]
        omega
      have hvc1 : valNum c1a = natOfDigits a.int * 10 ^ d +
          ((natOfDigits pre + 1) * 10 ^ r.length + natOfDigits r) := by
        rw [hc1adef]
        unfold valNum
        simp only
        rw [natOfDigits_append, padStartZeros_natOfDigits, natOfDigits_natToDigits,
          List.length_append, padStartZeros_length _ _ hlen1,
          show d - r.length + r.length = d by omega]
      have hstep : valNum norm < valNum c1a := by
        rw [hvnorm, hvc1, Nat.succ_mul]
        omega
      have hexit : jsLeJs (.num c1a) (.num norm) = false := by
        rw [jsLeJs_num_num]
        exact (jsLe_false_iff c1a norm).mpr
          (((val_eq_of_same_length norm c1a (by rw [hnlen, hc1len])).1).mpr hstep)
      refine ⟨c1a, ?_, ?_, ?_⟩
      · rw [hceq, show (2 : Nat) = 1 + 1 from rfl,
          suggestLoopUp_step 1 (.num c0) norm r d (by rw [jsLeJs_num_num]; exact hA),
          hc1eq, show (1 : Nat) = 0 + 1 from rfl,
          suggestLoopUp_exit 0 (.num c1a) norm r d hexit]
      · rw [hc1adef]
        exact validateAmountToReference_suffix _ _ r d hr
          (by rw [padStartZeros_length _ _ hlen1]; omega)
      · rw [htrunc]
        exact ((val_eq_of_same_length norm c1a (by rw [hnlen, hc1len])).1).mpr hstep

/-- Witness for C2 at the repository's documented example: desired
`10.123456`, reference `00023`, six decimals (the suggestion is
`10.200023`). -/
theorem up_suggestion_witness :
    ∃ result,
      calculateSingleSuggestion 2
          (normalizeAmount { int := [1, 0], frac := [1, 2, 3, 4, 5, 6] } 6)
          [0, 0, 0, 2, 3] 6 .up = some (JsAmount.num result) ∧
        validateAmountToReference result [0, 0, 0, 2, 3] 6 = true ∧
        val { int := [1, 0], frac := [1, 2, 3, 4, 5, 6].take 6 } < val result :=
  up_suggestion_matches_and_exceeds { int := [1, 0], frac := [1, 2, 3, 4, 5, 6] }
    [0, 0, 0, 2, 3] 6 (by decide) (by decide) (by decide) (by decide) (by decide)

/-! ## C4: termination of the embed-and-adjust loops -/

/-- The clamp state of the `down` loop is a fixpoint of the decrement
while the loop guard still holds, so the loop runs out of any fuel. -/
theorem downLoop_stuck_at_clamp :
    ∀ fuel, suggestLoopDown fuel { int := [0], frac := [0, 0, 0, 0, 0, 0, 0, 5] }
      { int := [0], frac := [0, 0, 0, 0, 0, 0, 0, 1] } 1 = none := by
  intro fuel
  induction fuel with
  | zero => rfl
  | succ f ih =>
    rw [suggestLoopDown_step f _ _ 1 (by decide),
      show decrementBeforeReference { int := [0], frac := [0, 0, 0, 0, 0, 0, 0, 5] } 1 =
        { int := [0], frac := [0, 0, 0, 0, 0, 0, 0, 5] } by decide]
    exact ih

/-- C4 is refuted on the code: for the normalised requested amount
`0.00000001`, reference `5`, eight decimals, the `down` loop of
`calculateSingleSuggestion` never terminates — `decrementBeforeReference`
clamps to `0.00000005`, which still exceeds the requested amount, and
decrementing the clamp reproduces it, so no amount of fuel makes the
loop finish (the claimed bound was `10 ^ (decimals - len r)` steps). -/
theorem down_suggestion_never_terminates :
    ∀ fuel, calculateSingleSuggestion fuel
      (normalizeAmount { int := [0], frac := [0, 0, 0, 0, 0, 0, 0, 1] } 8) [5] 8 .down
        = none := by
  intro fuel
  show (suggestLoopDown fuel { int := [0], frac := [0, 0, 0, 0, 0, 0, 0, 5] }
    { int := [0], frac := [0, 0, 0, 0, 0, 0, 0, 1] } 1).map JsAmount.num = none
  rw [downLoop_stuck_at_clamp fuel]
  rfl

/-! ## C5: the down-direction clamp value -/

/-- C5 is refuted on the code: at the borrow-below-zero state reached
from requested amount `0.00000001`, reference `5`, eight decimals, the
decrement clamps to the bare tail `0.00000005` — not to
`calculateMinimumAmountToSend`'s `0.00000015` — and that clamp is a
fixpoint of the decrement, so the down suggestion never returns any
amount at all. -/
theorem clamp_is_not_minimumValidAmount :
    decrementBeforeReference { int := [0], frac := [0, 0, 0, 0, 0, 0, 0, 5] } 1 =
        { int := [0], frac := [0, 0, 0, 0, 0, 0, 0, 5] } ∧
      decrementBeforeReference { int := [0], frac := [0, 0, 0, 0, 0, 0, 0, 5] } 1 ≠
        calculateMinimumAmountToSend [5] 8 ∧
      calculateMinimumAmountToSend [5] 8 = { int := [0], frac := [0, 0, 0, 0, 0, 0, 1, 5] } := by
  decide

/-! ## C10: the raw-amount conversion ignores its decimals argument -/

/-- C10: `convertToRawAmount` ignores its `decimals` argument — the raw
amount sent to the memo-usage-check collaborator is always the integer
digits scaled by `10 ^ 8` plus the fractional digits truncated or padded
to eight places. -/
theorem convertToRawAmount_ignores_decimals (a : Amount) (d₁ d₂ : Nat) :
    convertToRawAmount a d₁ = convertToRawAmount a d₂ ∧
      convertToRawAmount a d₁ =
        natOfDigits a.int * 10 ^ 8 +
          natOfDigits (a.frac.take 8) * 10 ^ (8 - (a.frac.take 8).length) := by
  refine ⟨rfl, ?_⟩
  unfold convertToRawAmount
  by_cases hlen : a.frac.length ≤ 8
  · have htake : a.frac.take 8 = a.frac := List.take_of_length_le hlen
    have hfull : (padEndZeros a.frac 8).take 8 = padEndZeros a.frac 8 :=
      List.take_of_length_le (by rw [padEndZeros_length _ _ hlen])
    rw [hfull, natOfDigits_append, padEndZeros_natOfDigits, padEndZeros_length _ _ hlen, htake]
  · have htake : (padEndZeros a.frac 8).take 8 = a.frac.take 8 := by
      unfold padEndZeros
      rw [show 8 - a.frac.length = 0 by omega]
      simp
    rw [htake, natOfDigits_append]
    have h8 : (a.frac.take 8).length = 8 := by
      simp
      omega
    rw [h8]
    simp

/-! ## C6: affiliate injection into swap memos -/

/-- C6 is refuted as universally stated: `=:BTC.BTC` is a swap memo
(action `=`), yet `modifySwapMemoWithAffiliate` does not pad it to the
six-field layout and inject — memos with fewer than three colon-fields
are rejected with the memo returned unchanged. -/
theorem modifySwap_rejects_short_swap_memo :
    isSwapMemo "=:BTC.BTC".toList = true ∧
      (modifySwapMemoWithAffiliate "=:BTC.BTC".toList "-".toList "5".toList).success = false ∧
      (modifySwapMemoWithAffiliate "=:BTC.BTC".toList "-".toList "5".toList).modifiedMemo =
        "=:BTC.BTC".toList := by
  decide

/-- C6 (amended): for every swap memo with at least three colon-fields,
a non-empty affiliate address, and a fee parsing into `[0, 10000]`, the
transformer pads the fields to the six-slot layout
`action:asset:address:limit:affiliate:fee` with empty strings and then:
if the affiliate slot is empty it sets the affiliate slot to the address
and the fee slot to the fee; if the affiliate slot is non-empty it
appends `/` + address to the affiliate slot, and appends `/` + fee to
the fee slot when that slot is non-empty (setting it outright when
empty).  In particular the two documented examples rewrite exactly as
claimed. -/
theorem modifySwap_injects_affiliate :
    (∀ memo addr fee (n : Int) (fields : List Str),
        isSwapMemo memo = true →
        jsTrim addr ≠ [] →
        jsParseInt fee = some n → 0 ≤ n → n ≤ 10000 →
        splitOnChar ':' (jsTrim memo) = fields →
        3 ≤ fields.length →
        (modifySwapMemoWithAffiliate memo addr fee).success = true ∧
          (modifySwapMemoWithAffiliate memo addr fee).modifiedMemo =
            joinColon
              (let padded := fields ++ List.replicate (6 - fields.length) []
              if padded.getD 4 [] = [] then (padded.set 4 addr).set 5 fee
              else
                (padded.set 4 (padded.getD 4 [] ++ '/' :: addr)).set 5
                  (if padded.getD 5 [] = [] then fee
                   else padded.getD 5 [] ++ '/' :: fee))) ∧
      (modifySwapMemoWithAffiliate "=:BTC.BTC:bc1quser123".toList "-".toList
          "5".toList).modifiedMemo = "=:BTC.BTC:bc1quser123::-:5".toList ∧
      (modifySwapMemoWithAffiliate "=:BTC.BTC:bc1quser123:1000:tom:10".toList "-".toList
          "5".toList).modifiedMemo = "=:BTC.BTC:bc1quser123:1000:tom/-:10/5".toList := by
  refine ⟨?_, by decide, by decide⟩
  intro memo addr fee n fields hswap haddr hfee hn0 hn1 hsplit hlen
  have herr : swapAffiliateErrors addr fee = [] := by
    unfold swapAffiliateErrors
    rw [if_neg haddr, hfee]
    have : ¬ (n < 0 ∨ 10000 < n) := by omega
    simp [this]
  have hmod : modifySwapMemoWithAffiliate memo addr fee =
      { success := true, originalMemo := memo,
        modifiedMemo := joinColon (buildSwapMemoWithAffiliate fields addr fee).1,
        changes := (buildSwapMemoWithAffiliate fields addr fee).2, errors := [] } := by
    unfold modifySwapMemoWithAffiliate
    rw [if_neg (by simp [hswap]), if_neg (by simp [herr]), hsplit, if_neg (by omega)]
  rw [hmod]
  refine ⟨rfl, ?_⟩
  simp only
  unfold buildSwapMemoWithAffiliate
  by_cases hcur : (fields ++ List.replicate (6 - fields.length) []).getD 4 [] = []
  · simp only [if_pos hcur]
  · simp only [if_neg hcur]

/-- Witness for C6 on a four-field swap memo with an empty affiliate
slot. -/
theorem modifySwap_injects_affiliate_witness :
    (modifySwapMemoWithAffiliate "=:ETH.ETH:0xabc:100".toList "-".toList "5".toList).success
        = true ∧
      (modifySwapMemoWithAffiliate "=:ETH.ETH:0xabc:100".toList "-".toList
          "5".toList).modifiedMemo = "=:ETH.ETH:0xabc:100:-:5".toList := by
  have h := modifySwap_injects_affiliate.1 "=:ETH.ETH:0xabc:100".toList "-".toList "5".toList
    5 (splitOnChar ':' (jsTrim "=:ETH.ETH:0xabc:100".toList)) (by decide) (by decide)
    (by decide) (by decide) (by decide) rfl (by decide)
  exact ⟨h.1, by rw [h.2]; decide⟩

/-! ## C7: affiliate-processing failure is never fatal -/

/-- C7: every validation failure of `modifySwapMemoWithAffiliate`
returns the memo character-for-character unchanged, and when the
configured affiliate inputs fail validation the orchestrator proceeds
with the caller's original memo — `registerMemo` behaves exactly as if
affiliate injection were disabled, so affiliate failure never makes it
fail. -/
theorem affiliate_failure_is_nonfatal (cfg : AffiliateConfig) (oracle : ChainOracle)
    (req : RegistrationRequest) :
    (∀ addr fee, (modifySwapMemoWithAffiliate req.memo addr fee).success = false →
        (modifySwapMemoWithAffiliate req.memo addr fee).modifiedMemo = req.memo) ∧
      ((modifySwapMemoWithAffiliate req.memo cfg.affiliateThorname
            (effectiveFeeBp cfg)).success = false →
        processAffiliateInjection cfg req.memo = req.memo ∧
          registerMemoModel cfg oracle req =
            registerMemoModel { cfg with injectAffiliateInSwaps := false } oracle req) := by
  constructor
  · intro addr fee hfail
    by_cases h1 : isSwapMemo req.memo = true
    · by_cases h2 : swapAffiliateErrors addr fee = []
      · by_cases h3 : (splitOnChar ':' (jsTrim req.memo)).length < 3
        · simp [modifySwapMemoWithAffiliate, h1, h2, h3]
        · simp [modifySwapMemoWithAffiliate, h1, h2, h3] at hfail
      · simp [modifySwapMemoWithAffiliate, h1, h2]
    · simp [modifySwapMemoWithAffiliate, h1]
  · intro hfail
    have hproc : processAffiliateInjection cfg req.memo = req.memo := by
      unfold processAffiliateInjection
      by_cases hinj : cfg.injectAffiliateInSwaps = true
      · rw [if_neg (by simp [hinj])]
        by_cases hth : cfg.affiliateThorname = []
        · simp [hth]
        · rw [if_neg hth]
          by_cases hswap : isSwapMemo req.memo = true
          · rw [if_neg (by simp [hswap])]
            simp [hfail]
          · simp [hswap]
      · simp [hinj]
    refine ⟨hproc, ?_⟩
    unfold registerMemoModel
    rw [hproc,
      show processAffiliateInjection { cfg with injectAffiliateInSwaps := false } req.memo =
        req.memo from rfl]

/-- Witness for C7: with the default affiliate configuration and an
add-liquidity memo the transformer fails and the orchestrator keeps the
caller's memo. -/
theorem affiliate_failure_is_nonfatal_witness :
    (modifySwapMemoWithAffiliate sampleAddReq.memo sampleCfgOn.affiliateThorname
        (effectiveFeeBp sampleCfgOn)).success = false ∧
      processAffiliateInjection sampleCfgOn sampleAddReq.memo = sampleAddReq.memo :=
  ⟨by decide,
    ((affiliate_failure_is_nonfatal sampleCfgOn okRefOracle sampleAddReq).2 (by decide)).1⟩

/-! ## C8: confirmed registrations carry all reference metadata -/

/-- C8 is refuted as stated: with a collaborator read-back whose
reference is the empty digit string, `registerMemo` persists a
`confirmed` record with an empty reference ID (the code never checks
non-emptiness before `createRegistration`). -/
theorem confirmed_record_with_empty_reference :
    ((registerMemoModel sampleCfgOn emptyRefOracle sampleAddReq).1.map
        fun rec => (rec.status, rec.referenceId)) = [(RegStatus.confirmed, [])] := rfl

/-- C8 (amended): every record `registerMemo` persists has status
`confirmed` and carries the reference ID, height, registering address
and registration hash all taken from the one successful memo-reference
read-back, written in a single `createRegistration` call; the reference
ID is non-empty whenever the collaborator's read-back reference is
non-empty, but the code itself never rejects an empty one. -/
theorem confirmed_record_fields_set_together (cfg : AffiliateConfig) (oracle : ChainOracle)
    (req : RegistrationRequest) (rec : RegistrationRecord)
    (hmem : rec ∈ (registerMemoModel cfg oracle req).1) :
    rec.status = .confirmed ∧
      ∃ tx mr,
        oracle.broadcastResult
            ("REFERENCE:".toList ++ req.asset ++ ':' :: processAffiliateInjection cfg req.memo)
          = .ok tx ∧
        oracle.memoReference tx = .ok mr ∧
        rec.referenceId = mr.reference ∧ rec.height = mr.height ∧
        rec.registeredBy = mr.registered_by ∧ rec.registrationHash = mr.registration_hash ∧
        (mr.reference ≠ [] → rec.referenceId ≠ []) := by
  simp only [registerMemoModel, registerMemoCore] at hmem
  split at hmem
  · simp at hmem
  · rename_i tx hbr
    split at hmem
    · simp at hmem
    · rename_i mr hmr
      simp at hmem
      subst hmem
      exact ⟨rfl, tx, mr, hbr, hmr, rfl, rfl, rfl, rfl, fun h => h⟩

/-- Witness for C8: with a read-back carrying reference `00023` the
persisted record is `confirmed` with every reference field from that
read-back. -/
theorem confirmed_record_fields_witness :
    okRegRecord.status = RegStatus.confirmed ∧
      ∃ tx mr,
        okRefOracle.broadcastResult
            ("REFERENCE:".toList ++ sampleAddReq.asset ++ ':' ::
              processAffiliateInjection sampleCfgOn sampleAddReq.memo)
          = .ok tx ∧
        okRefOracle.memoReference tx = .ok mr ∧
        okRegRecord.referenceId = mr.reference ∧ okRegRecord.height = mr.height ∧
        okRegRecord.registeredBy = mr.registered_by ∧
        okRegRecord.registrationHash = mr.registration_hash ∧
        (mr.reference ≠ [] → okRegRecord.referenceId ≠ []) :=
  confirmed_record_fields_set_together sampleCfgOn okRefOracle sampleAddReq okRegRecord
    (by rw [show (registerMemoModel sampleCfgOn okRefOracle sampleAddReq).1 = [okRegRecord]
          from rfl]
        exact List.mem_singleton.mpr rfl)

end Memoless
